import Mathlib

/-!
Shallow embedding of the command-dispatch core of `src/src/utils/pluginManager.ts`
(repository telebun): prefix-based command parsing, alias resolution against the
alias store (`src/src/utils/aliasDB.ts`), command rewriting, dispatch with
per-invocation error containment, and registry load/reload.

Modelling conventions:
- JavaScript strings are modelled as `List Char` (`Str`); `text.slice(p.length)`
  is `List.drop` by character count (all strings of interest are in the BMP,
  where JS UTF-16 length and character count coincide), `text.startsWith(p)` is
  `List.isPrefixOf`, `.trim()` drops whitespace from both ends, and
  `split(/\s+/).filter(Boolean)` is the whitespace-run tokenizer `splitTokens`.
- JavaScript truthiness of a string (empty string is falsy) is modelled
  explicitly wherever the source relies on it (`jsTruthy`, `jsOr`).
- `localeCompare`-based sorting is modelled as sorting by the lexicographic
  order on `List Char`.
- The alias store (`AliasDB`) is modelled as a list of `{original, final}`
  records read through `aliasGet`, matching its narrow get/list interface; the
  `AliasDB` constructor, which can throw when the underlying storage is
  missing, is modelled by an `Option AliasStore` argument (`none` = the
  constructor throws).
- Handlers are modelled as functions `Message α → Except String Unit`, where
  `Except.error` models a thrown exception; the message's non-textual fields
  are an opaque payload of type `α`.
-/

namespace Telebun

/-- JavaScript strings, modelled as character lists. -/
abbrev Str := List Char

/-- Coercion from Lean string literals for readability of concrete inputs. -/
def str (s : String) : Str := s.data

/-- Model of `.trim()`: remove leading and trailing whitespace. -/
def trimStr (s : Str) : Str :=
  (((s.dropWhile Char.isWhitespace).reverse).dropWhile Char.isWhitespace).reverse

/-- Tokenizer for `rest.split(/\s+/).filter(Boolean)`: split on runs of
whitespace into the list of non-empty tokens. `acc` holds the (reversed)
characters of the token currently being read. -/
def splitTokensAux : Str → Str → List Str
  | [], acc => if acc.isEmpty then [] else [acc.reverse]
  | c :: cs, acc =>
    if c.isWhitespace then
      (if acc.isEmpty then [] else [acc.reverse]) ++ splitTokensAux cs []
    else
      splitTokensAux cs (c :: acc)

/-- Model of `s.split(/\s+/).filter(Boolean)`. -/
def splitTokens (s : Str) : List Str :=
  splitTokensAux s []

/-- Tokens joined by single spaces, as in `parts.slice(0, i).join(" ")`. -/
def joinSpace (l : List Str) : Str :=
  List.intercalate [' '] l

/-- An alias record as stored by `aliasDB.ts`: `original` is what the user
types, `final` is the command text it expands to. -/
structure AliasRecord where
  original : Str
  final : Str
  deriving DecidableEq, Repr

/-- The alias store contents: `AliasDB.list()` as a list of records. -/
abbrev AliasStore := List AliasRecord

/-- Model of `AliasDB.get(original)`: the `final` of the first record whose
`original` matches, or `none` (`original` is a primary key, so first = only). -/
def aliasGet (store : AliasStore) (orig : Str) : Option Str :=
  (store.find? (fun r => r.original == orig)).map (fun r => r.final)

/-- JavaScript truthiness of a nullable string: `null` and `""` are falsy. -/
def jsTruthy (o : Option Str) : Bool :=
  match o with
  | some s => !s.isEmpty
  | none => false

/-- JavaScript `a || b` for a nullable string `a` and a string `b`. -/
def jsOr (a : Option Str) (b : Str) : Str :=
  match a with
  | some s => if s.isEmpty then b else s
  | none => b

/-- The longest-match alias scan of `getCommandFromMessage` (lines 213-219):
for `i` from `n` down to `1`, the candidate is the first `i` tokens joined by
spaces; the first candidate with a truthy `aliasDB.get` result wins. -/
def aliasScan (store : AliasStore) (parts : List Str) : Nat → Option Str
  | 0 => none
  | i + 1 =>
    let candidate := joinSpace (parts.take (i + 1))
    if jsTruthy (aliasGet store candidate) then some candidate
    else aliasScan store parts i

/-- The conservative identifier character class of `/^[a-z0-9_]+$/i`
(line 229). -/
def isIdentChar (c : Char) : Bool :=
  c.isAlphanum || c == '_'

/-- A non-empty string of ASCII letters, digits and underscore. -/
def isIdent (s : Str) : Bool :=
  !s.isEmpty && s.all isIdentChar

/-- The module-level alias-resolution globals of `pluginManager.ts`:
`aliasResolutionAvailable` (line 44) and `aliasResolutionWarned` (line 45). -/
structure AliasGlobals where
  available : Bool
  warned : Bool
  deriving DecidableEq, Repr

/-- Model of `openAliasDB` (lines 74-92). `ctor` is the outcome of
`new AliasDB()`: `some store` on success, `none` when the constructor throws.
Returns the opened store (if any), the updated globals, and the number of
warning log lines emitted by this call (0 or 1). -/
def openAliasDB (ctor : Option AliasStore) (g : AliasGlobals) :
    Option AliasStore × AliasGlobals × Nat :=
  if !g.available then (none, g, 0)
  else
    match ctor with
    | some s => (some s, g, 0)
    | none =>
      (none, { available := false, warned := true }, if g.warned then 0 else 1)

/-- Model of `getCommandFromMessage` (lines 190-232) for a given prefix table
`pfs` (the `diyPrefixes`-or-global choice of lines 194-197 already resolved),
the profile flag `enable` (= `enableAliasResolution`, line 43), the alias-DB
constructor outcome `ctor`, and the alias globals `g`. Returns the parsed
command (or `none`), the updated globals, and the warning count. -/
def getCommandFromMessage (enable : Bool) (ctor : Option AliasStore)
    (g : AliasGlobals) (pfs : List Str) (text : Str) :
    Option Str × AliasGlobals × Nat :=
  match pfs.find? (fun p => p.isPrefixOf text) with
  | none => (none, g, 0)
  | some matched =>
    let rest := trimStr (text.drop matched.length)
    if rest.isEmpty then (none, g, 0)
    else
      let parts := splitTokens rest
      if parts.isEmpty then (none, g, 0)
      else
        let opened := if enable then openAliasDB ctor g else (none, g, 0)
        let aliasCandidate :=
          match opened.1 with
          | some s => aliasScan s parts parts.length
          | none => none
        match aliasCandidate with
        | some c => (some c, opened.2.1, opened.2.2)
        | none =>
          match parts with
          | [] => (none, opened.2.1, opened.2.2)
          | cmd :: _ =>
            (if isIdent cmd then some cmd else none, opened.2.1, opened.2.2)

/-- A chat message: `message` and `text` are its textual payload fields (the
source reads `base.message || base.text` and, on rewrite, overrides both), and
`payload : α` stands for all its other fields, which the dispatcher never
touches. -/
structure Message (α : Type) where
  message : Str
  text : Str
  payload : α
  deriving DecidableEq

/-- A command handler: receives the (possibly rewritten) message; an
`Except.error` models a thrown exception. The `trigger` argument of the source
is irrelevant to the claims and omitted. -/
abbrev Handler (α : Type) := Message α → Except String Unit

/-- A plugin, as consumed by the registry (`@utils/pluginBase` shape).
`cmdHandlers` is the command-name → handler mapping as an association list.
The optional function-valued fields that only matter for fan-out counting are
modelled by their presence/count: `listenMessage` models the presence of
`listenMessageHandler`, `eventHandlersCount` the length of `eventHandlers`,
and `cronKeys` the keys of `cronTasks`. -/
structure Plugin (α : Type) where
  name : Str
  cmdHandlers : List (Str × Handler α)
  ignoreEdited : Bool := false
  listenMessage : Bool := false
  listenMessageHandlerIgnoreEdited : Bool := false
  eventHandlersCount : Nat := 0
  cronKeys : List Str := []

/-- A command-index entry (`PluginEntry` of `pluginManager.ts`, lines 14-18). -/
structure PluginEntry (α : Type) where
  original : Option Str := none
  aliasFinal : Option Str := none
  plugin : Plugin α

/-- Lookup of `pluginEntry.plugin.cmdHandlers[targetCmd]`. -/
def lookupHandler (p : Plugin α) (k : Str) : Option (Handler α) :=
  (p.cmdHandlers.find? (fun h => h.1 == k)).map (fun h => h.2)

/-- JavaScript `Map.get` over the command index, modelled as an association
list in insertion order. -/
def mapGet (m : List (Str × β)) (k : Str) : Option β :=
  (m.find? (fun p => p.1 == k)).map (fun p => p.2)

/-- JavaScript `Map.set`: replace in place when the key exists (keeping its
position), otherwise append. -/
def mapSet (m : List (Str × β)) (k : Str) (v : β) : List (Str × β) :=
  if m.any (fun p => p.1 == k) then
    m.map (fun p => if p.1 == k then (k, v) else p)
  else
    m ++ [(k, v)]

/-- Model of `const text = base.message || base.text || ""` (line 257). -/
def getText (m : Message α) : Str :=
  if m.message.isEmpty then (if m.text.isEmpty then [] else m.text)
  else m.message

/-- The `matched` local of the rewrite step (line 258): the first prefix of
the table that leads the message's text, or the empty string. -/
def matchedOf (pfs : List Str) (msg : Message α) : Str :=
  jsOr ((pfs.find? (fun p => p.isPrefixOf (getText msg)))) []

/-- The `parts` local of the rewrite step (lines 259-260): the message's
tokens after stripping the matched prefix and trimming. -/
def strippedParts (pfs : List Str) (msg : Message α) : List Str :=
  splitTokens (trimStr ((getText msg).drop (matchedOf pfs msg).length))

/-- The `newText` local of the rewrite step (lines 269-271): the matched
prefix, then `aliasFinal`'s tokens, then the tokens the user typed after the
alias key, all tokens joined by single spaces. -/
def rewrittenText (pfs : List Str) (cmd f : Str) (msg : Message α) : Str :=
  matchedOf pfs msg ++
    joinSpace (splitTokens f ++ (strippedParts pfs msg).drop (splitTokens cmd).length)

/-- The rewrite step of `dealCommandPluginWithMessage` (lines 250-289): when
the entry carries a truthy `original` and a truthy `aliasFinal` different from
`original`, re-derive the tokens of the current message, check that the alias
key `cmd`'s tokens are a literal leading prefix of them, and if so splice
`aliasFinal`'s tokens in front of the user's trailing tokens, overriding both
textual fields of a fresh copy of the message. Otherwise return the message
unchanged. -/
def rewriteForAlias (pfs : List Str) (cmd : Str) (entry : PluginEntry α)
    (msg : Message α) : Message α :=
  match entry.original, entry.aliasFinal with
  | some o, some f =>
    if !o.isEmpty && !f.isEmpty && f != o then
      let parts := strippedParts pfs msg
      let aliasParts := splitTokens cmd
      if aliasParts.length ≤ parts.length && aliasParts.isPrefixOf parts then
        let newText := rewrittenText pfs cmd f msg
        { msg with message := newText, text := newText }
      else msg
    else msg
  | _, _ => msg

/-- Outcome of one dispatch call. `invoked k m` records that the handler
registered under key `k` was called with message `m` and returned normally;
`failed k m e notice edited` records that that handler threw `e`, the error
was caught, logged, and reported by editing the original message `edited`
with text `notice`. The remaining constructors are the silent early returns. -/
inductive DispatchResult (α : Type) where
  | noEntry
  | skippedEdited
  | noHandler
  | invoked (targetCmd : Str) (received : Message α)
  | failed (targetCmd : Str) (received : Message α) (err : String)
      (notice : String) (edited : Message α)
  deriving DecidableEq

/-- The failure notice text of line 297 (`处理命令时出错：` + error). -/
def failureNotice (e : String) : String :=
  "处理命令时出错：" ++ e

/-- Model of `dealCommandPluginWithMessage` (lines 234-299) over a command
index `registry`. The `try/catch` of the source is modelled by the total
return type: a thrown handler error surfaces as `DispatchResult.failed`, never
as an exception of the function itself. -/
def dealCommandPluginWithMessage (pfs : List Str)
    (registry : List (Str × PluginEntry α)) (cmd : Str) (isEdited : Bool)
    (msg : Message α) : DispatchResult α :=
  match mapGet registry cmd with
  | none => .noEntry
  | some entry =>
    if isEdited && entry.plugin.ignoreEdited then .skippedEdited
    else
      let targetCmd := jsOr entry.original cmd
      let targetMsg := rewriteForAlias pfs cmd entry msg
      match lookupHandler entry.plugin targetCmd with
      | none => .noHandler
      | some h =>
        match h targetMsg with
        | .ok _ => .invoked targetCmd targetMsg
        | .error e => .failed targetCmd targetMsg e (failureNotice e) msg

/-- Dispatch of a sequence of already-parsed invocations (`cmd`, `isEdited`,
message), one `dealCommandPluginWithMessage` call per inbound event, as
performed by the event loop: each call returns normally (errors contained),
so every element is processed. -/
def dealMany (pfs : List Str) (registry : List (Str × PluginEntry α))
    (events : List (Str × Bool × Message α)) : List (DispatchResult α) :=
  events.map (fun ev => dealCommandPluginWithMessage pfs registry ev.1 ev.2.1 ev.2.2)

/-- Rendering of one command-list line (lines 181-185): a key whose entry
carries a truthy `original` is annotated `key(original)`, otherwise the bare
key. -/
def renderCommand (k : Str) (e : PluginEntry α) : Str :=
  match e.original with
  | some o => if o.isEmpty then k else k ++ ('(' :: o ++ [')'])
  | none => k

/-- Model of `listCommands` (lines 177-188): build the display map over the
index keys in insertion order, take its values, and sort them (the source's
`localeCompare` sort is modelled as the lexicographic order on `Str`). -/
def listCommands (m : List (Str × PluginEntry α)) : List Str :=
  let cmds := m.foldl (fun acc p => mapSet acc p.1 (renderCommand p.1 p.2)) []
  (cmds.map Prod.snd).mergeSort (fun a b => decide (a ≤ b))

/-- One step of command registration inside `setPlugins` (lines 152-168):
index the literal command, then index every alias record whose `final` is the
command or the command followed by a space. -/
def registerPluginCmd (aliasList : AliasStore) (p : Plugin α)
    (idx : List (Str × PluginEntry α)) (cmd : Str) :
    List (Str × PluginEntry α) :=
  let idx1 := mapSet idx cmd ⟨none, none, p⟩
  if 0 < aliasList.length then
    (aliasList.filter
        (fun r => r.final == cmd || (cmd ++ [' ']).isPrefixOf r.final)).foldl
      (fun acc r => mapSet acc r.original ⟨some cmd, some r.final, p⟩) idx1
  else idx1

/-- Model of `setPlugins` (lines 104-171) over one directory: `mods` is the
outcome of `dynamicRequireWithDeps` + `isValidPlugin` per file (`none` = the
module failed to load or is invalid, and is skipped); each valid plugin is
appended to `validPlugins` and each of its command keys registered.
`aliasList` is the alias-store snapshot read at the start of the call. -/
def setPlugins (aliasList : AliasStore) (mods : List (Option (Plugin α)))
    (st : List (Plugin α) × List (Str × PluginEntry α)) :
    List (Plugin α) × List (Str × PluginEntry α) :=
  mods.foldl
    (fun acc m =>
      match m with
      | none => acc
      | some p =>
        (acc.1 ++ [p],
         (p.cmdHandlers.map Prod.fst).foldl (registerPluginCmd aliasList p) acc.2))
    st

/-- A transport event subscription, tagged by what registered it: the
dispatcher's two subscriptions (lines 420-421), a plugin's listener
subscriptions (lines 340-365), or one of a plugin's own event handlers
(lines 368-382). -/
inductive Sub where
  | dispatcherNew
  | dispatcherEdited
  | listenNew (pluginName : Str)
  | listenEdited (pluginName : Str)
  | pluginEvent (pluginName : Str) (i : Nat)
  deriving DecidableEq, Repr

/-- The subscriptions `dealListenMessagePlugin` registers for one plugin
(lines 337-383): a new-message listener when the plugin has a message
handler, an edited-message listener unless the plugin opts out (overridable
by the `TB_LISTENER_HANDLE_EDITED` allow-list `cfg` for a truthy-named
plugin), and one subscription per entry of `eventHandlers`. -/
def listenSubsFor (cfg : List Str) (p : Plugin α) : List Sub :=
  (if p.listenMessage then
    [Sub.listenNew p.name] ++
      (if !p.listenMessageHandlerIgnoreEdited ||
          (!p.name.isEmpty && cfg.contains p.name) then
        [Sub.listenEdited p.name]
      else [])
  else []) ++ (List.range p.eventHandlersCount).map (Sub.pluginEvent p.name)

/-- Model of `dealListenMessagePlugin` (lines 336-384). -/
def dealListenMessagePlugin (cfg : List Str) (ps : List (Plugin α)) : List Sub :=
  ps.foldl (fun acc p => acc ++ listenSubsFor cfg p) []

/-- `cronManager.set` keyed registration: replace when the key exists,
otherwise append. Only the keys matter to the claims. -/
def cronSet (keys : List Str) (k : Str) : List Str :=
  if keys.contains k then keys else keys ++ [k]

/-- Model of `dealCronPlugin` (lines 386-399): register every cron task of
every valid plugin. -/
def dealCronPlugin (ps : List (Plugin α)) : List Str :=
  ps.foldl (fun acc p => p.cronKeys.foldl cronSet acc) []

/-- The module-level host state rebuilt by reload: `validPlugins` (line 22),
the command index `plugins` (line 23), the transport client's registered
event handlers, and the cron manager's task keys. -/
structure HostState (α : Type) where
  validPlugins : List (Plugin α)
  commandIndex : List (Str × PluginEntry α)
  clientHandlers : List Sub
  cronTasks : List Str

/-- Model of `clearPlugins` (lines 401-410): empty the plugin list and
command index and remove every registered transport event handler. -/
def clearPlugins (st : HostState α) : HostState α :=
  { st with validPlugins := [], commandIndex := [], clientHandlers := [] }

/-- The inputs a reload consumes: the alias-store snapshot, the module load
outcomes of the user and built-in plugin directories (profile filtering
already applied, as it is deployment-time configuration), and the
`TB_LISTENER_HANDLE_EDITED` allow-list. -/
structure LoadEnv (α : Type) where
  aliasList : AliasStore
  userMods : List (Option (Plugin α))
  builtinMods : List (Option (Plugin α))
  listenCfg : List Str

/-- Model of `loadPlugins` (lines 412-424): clear everything, clear cron,
load both plugin directories, then re-subscribe the dispatcher and the
per-plugin fan-out. -/
def loadPlugins (env : LoadEnv α) (st : HostState α) : HostState α :=
  let cleared := clearPlugins st
  let cleared2 := { cleared with cronTasks := [] }
  let afterUser :=
    setPlugins env.aliasList env.userMods
      (cleared2.validPlugins, cleared2.commandIndex)
  let afterBuiltin := setPlugins env.aliasList env.builtinMods afterUser
  { validPlugins := afterBuiltin.1
    commandIndex := afterBuiltin.2
    clientHandlers :=
      [Sub.dispatcherNew, Sub.dispatcherEdited] ++
        dealListenMessagePlugin env.listenCfg afterBuiltin.1
    cronTasks := dealCronPlugin afterBuiltin.1 }

/-- A sequence of inbound messages run through `getCommandFromMessage`, the
alias globals threaded from call to call as the module-level variables are.
Returns the per-call results, the final globals, and the total number of
degraded-mode warning log lines. -/
def runCalls (enable : Bool) (ctor : Option AliasStore) (pfs : List Str) :
    AliasGlobals → List Str → List (Option Str) × AliasGlobals × Nat
  | g, [] => ([], g, 0)
  | g, t :: ts =>
    let r := getCommandFromMessage enable ctor g pfs t
    let rest := runCalls enable ctor pfs r.2.1 ts
    (r.1 :: rest.1, rest.2.1, r.2.2 + rest.2.2)

/-- Concrete fixture: a plugin registering the single command `google` with a
handler that succeeds. -/
def googlePlugin : Plugin Unit :=
  { name := str "google", cmdHandlers := [(str "google", fun _ => Except.ok ())] }

/-- Concrete fixture: the index entry produced for the alias record
`{original: "g", final: "google search"}` owned by `googlePlugin`. -/
def googleAliasEntry : PluginEntry Unit :=
  { original := some (str "google"), aliasFinal := some (str "google search"),
    plugin := googlePlugin }

/-- Concrete fixture: a command index with the literal `google` command and
its alias key `g`. -/
def demoRegistry : List (Str × PluginEntry Unit) :=
  [(str "g", googleAliasEntry), (str "google", { plugin := googlePlugin })]

/-- Concrete fixture: a plugin whose `boom` handler always throws. -/
def boomPlugin : Plugin Unit :=
  { name := str "boom", cmdHandlers := [(str "boom", fun _ => Except.error "kaput")] }

/-- Concrete fixture: a command index with the throwing `boom` command and a
well-behaved `google` command. -/
def mixedRegistry : List (Str × PluginEntry Unit) :=
  [(str "boom", { plugin := boomPlugin }), (str "google", { plugin := googlePlugin })]

/-- Concrete fixture: an inbound message whose two textual fields hold the
given text, with a unit payload. -/
def demoMsg (s : String) : Message Unit :=
  ⟨str s, str s, ()⟩

end Telebun

namespace Telebun

/-- Helper for C1: if the candidate of length `k` is in the store and every
longer candidate up to `n` is not, the scan starting at `n` returns the
length-`k` candidate. -/
theorem aliasScan_eq_of_longest (store : AliasStore) (parts : List Str)
    (k : Nat) (hk1 : 1 ≤ k)
    (hget : jsTruthy (aliasGet store (joinSpace (parts.take k))) = true) :
    ∀ n, k ≤ n →
      (∀ j, k < j → j ≤ n →
        jsTruthy (aliasGet store (joinSpace (parts.take j))) = false) →
      aliasScan store parts n = some (joinSpace (parts.take k)) := by
  intro n
  induction n with
  | zero => intro h _; omega
  | succ i ih =>
    intro hkn hmax
    by_cases hcase : k = i + 1
    · subst hcase
      simp only [aliasScan, hget, if_pos]
    · have hklt : k ≤ i := by omega
      have hfail : jsTruthy (aliasGet store (joinSpace (parts.take (i + 1)))) = false :=
        hmax (i + 1) (by omega) (le_refl _)
      simp only [aliasScan, hfail, Bool.false_eq_true, if_false]
      exact ih hklt (fun j hj1 hj2 => hmax j hj1 (by omega))

/-- C1: alias resolution is longest-match-wins. For every store and token
sequence, if the first `k` tokens joined by single spaces exist as an
`original` key in the alias store and no longer token-prefix does, the
resolver's scan (which tries every length from `parts.length` down to 1)
returns exactly that length-`k` candidate. -/
theorem alias_longest_match_wins (store : AliasStore) (parts : List Str)
    (k : Nat) (hk1 : 1 ≤ k) (hk2 : k ≤ parts.length)
    (hget : jsTruthy (aliasGet store (joinSpace (parts.take k))) = true)
    (hmax : ∀ j, k < j → j ≤ parts.length →
      jsTruthy (aliasGet store (joinSpace (parts.take j))) = false) :
    aliasScan store parts parts.length = some (joinSpace (parts.take k)) :=
  aliasScan_eq_of_longest store parts k hk1 hget parts.length hk2 hmax

/-- Witness for C1, the claim's own instance: with a 2-token alias
`"foo bar"` stored (and `"foo"` existing only as a plain command, hence not
in the store), the tokens `["foo","bar","baz"]` resolve to `"foo bar"`. -/
theorem alias_longest_match_wins_witness :
    aliasScan [⟨str "foo bar", str "f b"⟩]
      [str "foo", str "bar", str "baz"] 3 = some (str "foo bar") := by
  have h := alias_longest_match_wins [⟨str "foo bar", str "f b"⟩]
    [str "foo", str "bar", str "baz"] 2 (by decide) (by decide) (by decide)
    (fun j h1 h2 => by
      simp only [List.length_cons, List.length_nil] at h2
      have hj : j = 3 := by omega
      subst hj
      decide)
  exact h

/-- C5: when the alias store adapter's construction throws, resolution
degrades to a no-op for every subsequent call and the degraded mode is
logged exactly once process-wide. Running any positive number of
`.anycommand` invocations from the initial globals (available, not yet
warned): every call returns the literal `"anycommand"`, and exactly one
warning is emitted in total. -/
theorem alias_unavailable_degrades_once (n : Nat) (hn : 1 ≤ n) :
    runCalls true none [str "."] ⟨true, false⟩
      (List.replicate n (str ".anycommand")) =
      (List.replicate n (some (str "anycommand")), ⟨false, true⟩, 1) := by
  obtain ⟨m, rfl⟩ : ∃ m, n = m + 1 := ⟨n - 1, by omega⟩
  have tail : ∀ m', runCalls true none [str "."] ⟨false, true⟩
      (List.replicate m' (str ".anycommand")) =
      (List.replicate m' (some (str "anycommand")), ⟨false, true⟩, 0) := by
    intro m'
    induction m' with
    | zero => rfl
    | succ i ih =>
      rw [List.replicate_succ, List.replicate_succ]
      show ((getCommandFromMessage true none ⟨false, true⟩ [str "."]
          (str ".anycommand")).1 :: _, _, _) = _
      rw [show getCommandFromMessage true none ⟨false, true⟩ [str "."]
          (str ".anycommand") = (some (str "anycommand"), ⟨false, true⟩, 0)
        from by decide]
      simp only [ih]
  rw [List.replicate_succ, List.replicate_succ]
  show ((getCommandFromMessage true none ⟨true, false⟩ [str "."]
      (str ".anycommand")).1 :: _, _, _) = _
  rw [show getCommandFromMessage true none ⟨true, false⟩ [str "."]
      (str ".anycommand") = (some (str "anycommand"), ⟨false, true⟩, 1)
    from by decide]
  simp only [tail]

/-- Witness for C5 at three consecutive calls. -/
theorem alias_unavailable_degrades_once_witness :
    runCalls true none [str "."] ⟨true, false⟩
      (List.replicate 3 (str ".anycommand")) =
      (List.replicate 3 (some (str "anycommand")), ⟨false, true⟩, 1) :=
  alias_unavailable_degrades_once 3 (by decide)

/-- C6: the parse yields no command when no prefix of the table is a literal
leading substring of the text (the first matching prefix, in table order, is
the one used), or when the remainder after stripping the matched prefix is
empty after trimming, or when no alias matches and the first token fails the
conservative identifier pattern; and when no alias matches and the first
token passes that pattern, the result is exactly that first token. -/
theorem parse_none_and_literal_fallback (enable : Bool)
    (ctor : Option AliasStore) (g : AliasGlobals) (pfs : List Str)
    (text : Str) (store : AliasStore) :
    (pfs.find? (fun p => p.isPrefixOf text) = none →
      (getCommandFromMessage enable ctor g pfs text).1 = none) ∧
    (∀ matched, pfs.find? (fun p => p.isPrefixOf text) = some matched →
      (trimStr (text.drop matched.length)).isEmpty = true →
      (getCommandFromMessage enable ctor g pfs text).1 = none) ∧
    (∀ matched cmd others,
      pfs.find? (fun p => p.isPrefixOf text) = some matched →
      splitTokens (trimStr (text.drop matched.length)) = cmd :: others →
      aliasScan store (cmd :: others) (cmd :: others).length = none →
      isIdent cmd = false →
      (getCommandFromMessage true (some store) g pfs text).1 = none) ∧
    (∀ matched cmd others,
      pfs.find? (fun p => p.isPrefixOf text) = some matched →
      splitTokens (trimStr (text.drop matched.length)) = cmd :: others →
      aliasScan store (cmd :: others) (cmd :: others).length = none →
      isIdent cmd = true →
      (getCommandFromMessage true (some store) g pfs text).1 = some cmd) := by
  have evalStep : ∀ (matched cmd : Str) (others : List Str),
      pfs.find? (fun p => p.isPrefixOf text) = some matched →
      splitTokens (trimStr (text.drop matched.length)) = cmd :: others →
      aliasScan store (cmd :: others) (cmd :: others).length = none →
      (getCommandFromMessage true (some store) g pfs text).1 =
        (if isIdent cmd then some cmd else none) := by
    intro matched cmd others hm hsplit hscan
    have hrest : (trimStr (text.drop matched.length)).isEmpty = false := by
      by_contra hc
      rw [Bool.not_eq_false, List.isEmpty_iff] at hc
      rw [hc] at hsplit
      exact List.noConfusion hsplit
    by_cases hg : g.available
    · simp only [getCommandFromMessage, hm, hrest, hsplit, openAliasDB, hg,
        Bool.not_true, Bool.false_eq_true, if_false, if_true, hscan,
        List.isEmpty_cons]
    · simp only [getCommandFromMessage, hm, hrest, hsplit, openAliasDB,
        Bool.not_eq_true', hg, Bool.not_false, if_true, List.isEmpty_cons,
        Bool.false_eq_true, if_false]
  refine ⟨?_, ?_, ?_, ?_⟩
  · intro h
    simp only [getCommandFromMessage, h]
  · intro matched hm hempty
    simp only [getCommandFromMessage, hm, hempty, if_true]
  · intro matched cmd others hm hsplit hscan hident
    rw [evalStep matched cmd others hm hsplit hscan, hident]
    simp
  · intro matched cmd others hm hsplit hscan hident
    rw [evalStep matched cmd others hm hsplit hscan, hident]
    simp

/-- Witness for C6: one concrete instance per conjunct, with the default
prefix table restricted to `"."`: a text with no matching prefix, a text
that is only a prefix plus whitespace, a punctuation-only token, and a plain
`ping` invocation. -/
theorem parse_none_and_literal_fallback_witness :
    (getCommandFromMessage true (some []) ⟨true, false⟩ [str "."]
      (str "hello world")).1 = none ∧
    (getCommandFromMessage true (some []) ⟨true, false⟩ [str "."]
      (str ".   ")).1 = none ∧
    (getCommandFromMessage true (some []) ⟨true, false⟩ [str "."]
      (str ".--- x")).1 = none ∧
    (getCommandFromMessage true (some []) ⟨true, false⟩ [str "."]
      (str ".ping 8.8.8.8")).1 = some (str "ping") :=
  ⟨(parse_none_and_literal_fallback true (some []) ⟨true, false⟩ [str "."]
      (str "hello world") []).1 (by decide),
   (parse_none_and_literal_fallback true (some []) ⟨true, false⟩ [str "."]
      (str ".   ") []).2.1 (str ".") (by decide) (by decide),
   (parse_none_and_literal_fallback true (some []) ⟨true, false⟩ [str "."]
      (str ".--- x") []).2.2.1 (str ".") (str "---") [str "x"] (by decide)
      (by decide) (by decide) (by decide),
   (parse_none_and_literal_fallback true (some []) ⟨true, false⟩ [str "."]
      (str ".ping 8.8.8.8") []).2.2.2 (str ".") (str "ping") [str "8.8.8.8"]
      (by decide) (by decide) (by decide) (by decide)⟩

/-- C2: for a dispatched message whose index entry carries a (truthy)
`original` and `aliasFinal` with `aliasFinal ≠ original`, and whose tokens
after prefix-stripping start with the alias key's tokens, the rewrite fires:
the message the handler receives carries the matched prefix followed by the
`aliasFinal` tokens followed by the user's trailing tokens, and the handler
invoked is the one registered in the owning plugin under `original`. -/
theorem alias_rewrite_dispatch (pfs : List Str)
    (registry : List (Str × PluginEntry α)) (cmd : Str) (isEdited : Bool)
    (msg : Message α) (entry : PluginEntry α) (o f : Str) (h : Handler α)
    (hentry : mapGet registry cmd = some entry)
    (ho : entry.original = some o) (hoE : o.isEmpty = false)
    (hf : entry.aliasFinal = some f) (hfE : f.isEmpty = false)
    (hfo : f ≠ o)
    (hedit : (isEdited && entry.plugin.ignoreEdited) = false)
    (hhandler : lookupHandler entry.plugin o = some h)
    (hmatch : (splitTokens cmd).isPrefixOf (strippedParts pfs msg) = true) :
    rewriteForAlias pfs cmd entry msg =
      { msg with message := rewrittenText pfs cmd f msg,
                 text := rewrittenText pfs cmd f msg } ∧
    dealCommandPluginWithMessage pfs registry cmd isEdited msg =
      (match h ({ msg with message := rewrittenText pfs cmd f msg,
                           text := rewrittenText pfs cmd f msg }) with
       | .ok _ => DispatchResult.invoked o
           { msg with message := rewrittenText pfs cmd f msg,
                      text := rewrittenText pfs cmd f msg }
       | .error e => DispatchResult.failed o
           { msg with message := rewrittenText pfs cmd f msg,
                      text := rewrittenText pfs cmd f msg }
           e (failureNotice e) msg) := by
  obtain ⟨eo, ef, ep⟩ := entry
  simp only at ho hf hedit hhandler
  subst ho hf
  have hlen : (splitTokens cmd).length ≤ (strippedParts pfs msg).length :=
    (List.isPrefixOf_iff_prefix.mp hmatch).length_le
  have hcond : (!o.isEmpty && !f.isEmpty && f != o) = true := by
    simp [hoE, hfE, bne_iff_ne, hfo]
  have hrw : rewriteForAlias pfs cmd ⟨some o, some f, ep⟩ msg =
      { msg with message := rewrittenText pfs cmd f msg,
                 text := rewrittenText pfs cmd f msg } := by
    simp only [rewriteForAlias, hcond, if_true, hmatch, Bool.and_true,
      decide_eq_true_eq, hlen, if_pos]
  refine ⟨hrw, ?_⟩
  have htarget : jsOr (some o) cmd = o := by
    simp [jsOr, hoE]
  simp only [dealCommandPluginWithMessage, hentry, hedit, Bool.false_eq_true,
    if_false, htarget, hhandler, hrw]

/-- Witness for C2, the claim's own example: alias
`{original:"g", final:"google search"}`, input `".g cats"` with prefix `"."`
yields the rewritten text `".google search cats"` delivered to the handler
registered under `"google"`. -/
theorem alias_rewrite_dispatch_witness :
    dealCommandPluginWithMessage [str "."] demoRegistry (str "g") false
      (demoMsg ".g cats") =
      DispatchResult.invoked (str "google") (demoMsg ".google search cats") := by
  have hw := alias_rewrite_dispatch [str "."] demoRegistry (str "g") false
    (demoMsg ".g cats") googleAliasEntry (str "google") (str "google search")
    (fun _ => Except.ok ()) (by rfl) (by rfl) (by decide) (by rfl) (by decide)
    (by decide) (by rfl) (by rfl) (by decide)
  exact hw.2.trans (by rfl)

/-- C3: an error thrown by the invoked handler is caught at the dispatcher
boundary and reported by editing the triggering (original) message with the
failure notice; the dispatch call returns normally, so a failing handler
leaves the dispatch of every subsequent, unrelated command unchanged. -/
theorem handler_error_contained (pfs : List Str)
    (registry : List (Str × PluginEntry α)) (cmd : Str) (isEdited : Bool)
    (msg : Message α) (events : List (Str × Bool × Message α))
    (entry : PluginEntry α) (h : Handler α) (e : String)
    (hentry : mapGet registry cmd = some entry)
    (hedit : (isEdited && entry.plugin.ignoreEdited) = false)
    (hhandler : lookupHandler entry.plugin (jsOr entry.original cmd) = some h)
    (herr : h (rewriteForAlias pfs cmd entry msg) = Except.error e) :
    dealCommandPluginWithMessage pfs registry cmd isEdited msg =
      DispatchResult.failed (jsOr entry.original cmd)
        (rewriteForAlias pfs cmd entry msg) e (failureNotice e) msg ∧
    dealMany pfs registry ((cmd, isEdited, msg) :: events) =
      DispatchResult.failed (jsOr entry.original cmd)
        (rewriteForAlias pfs cmd entry msg) e (failureNotice e) msg ::
        dealMany pfs registry events := by
  have h1 : dealCommandPluginWithMessage pfs registry cmd isEdited msg =
      DispatchResult.failed (jsOr entry.original cmd)
        (rewriteForAlias pfs cmd entry msg) e (failureNotice e) msg := by
    simp only [dealCommandPluginWithMessage, hentry, hedit, Bool.false_eq_true,
      if_false, hhandler, herr]
  refine ⟨h1, ?_⟩
  simp only [dealMany, List.map_cons]
  rw [show dealCommandPluginWithMessage pfs registry
      ((cmd, isEdited, msg) : Str × Bool × Message α).1
      ((cmd, isEdited, msg) : Str × Bool × Message α).2.1
      ((cmd, isEdited, msg) : Str × Bool × Message α).2.2 =
      DispatchResult.failed (jsOr entry.original cmd)
        (rewriteForAlias pfs cmd entry msg) e (failureNotice e) msg from h1]

/-- Witness for C3: the throwing `boom` handler produces exactly one
user-visible failure notice on the triggering message, and the following
`google` invocation is dispatched normally. -/
theorem handler_error_contained_witness :
    dealCommandPluginWithMessage [str "."] mixedRegistry (str "boom") false
      (demoMsg ".boom") =
      DispatchResult.failed (str "boom") (demoMsg ".boom") "kaput"
        (failureNotice "kaput") (demoMsg ".boom") ∧
    dealMany [str "."] mixedRegistry
      [(str "boom", false, demoMsg ".boom"),
       (str "google", false, demoMsg ".google hi")] =
      [DispatchResult.failed (str "boom") (demoMsg ".boom") "kaput"
        (failureNotice "kaput") (demoMsg ".boom"),
       DispatchResult.invoked (str "google") (demoMsg ".google hi")] := by
  have hw := handler_error_contained [str "."] mixedRegistry (str "boom") false
    (demoMsg ".boom") [(str "google", false, demoMsg ".google hi")]
    { plugin := boomPlugin } (fun _ => Except.error "kaput") "kaput"
    (by rfl) (by rfl) (by rfl) (by rfl)
  exact ⟨hw.1, hw.2.trans (by rfl)⟩

/-- C7: the rewrite is copy-on-write. Whenever the rewrite changes the
message the handler receives, the new message value differs from the
original only in its two textual fields (which both hold one rewritten
text), and its payload — standing for every other message field — equals
the original's. The original message value itself is untouched: the
dispatcher's error path (`DispatchResult.failed`) still carries it
unchanged. -/
theorem rewrite_copy_on_write (pfs : List Str) (cmd : Str)
    (entry : PluginEntry α) (msg : Message α)
    (hne : rewriteForAlias pfs cmd entry msg ≠ msg) :
    (rewriteForAlias pfs cmd entry msg).payload = msg.payload ∧
    ∃ newText, rewriteForAlias pfs cmd entry msg =
      { msg with message := newText, text := newText } := by
  by_cases hcase : ∃ o f, entry.original = some o ∧ entry.aliasFinal = some f ∧
      (!o.isEmpty && !f.isEmpty && f != o) = true ∧
      ((splitTokens cmd).length ≤ (strippedParts pfs msg).length &&
        (splitTokens cmd).isPrefixOf (strippedParts pfs msg)) = true
  · obtain ⟨o, f, h1, h2, h3, h4⟩ := hcase
    obtain ⟨eo, ef, ep⟩ := entry
    simp only at h1 h2
    subst h1 h2
    refine ⟨?_, rewrittenText pfs cmd f msg, ?_⟩ <;>
      simp only [rewriteForAlias, h3, if_true, h4]
  · exfalso
    apply hne
    obtain ⟨eo, ef, ep⟩ := entry
    cases h1 : eo with
    | none => simp only [rewriteForAlias, h1]
    | some o =>
      cases h2 : ef with
      | none => simp only [rewriteForAlias, h1, h2]
      | some f =>
        by_cases h3 : (!o.isEmpty && !f.isEmpty && f != o) = true
        · by_cases h4 : ((splitTokens cmd).length ≤ (strippedParts pfs msg).length &&
              (splitTokens cmd).isPrefixOf (strippedParts pfs msg)) = true
          · exact absurd ⟨o, f, by rw [h1], by rw [h2], h3, h4⟩ hcase
          · simp only [rewriteForAlias, h1, h2, h3, if_true,
              Bool.not_eq_true] at h4 ⊢
            rw [h4]
            simp
        · simp only [rewriteForAlias, h1, h2, Bool.not_eq_true] at h3 ⊢
          rw [h3]
          simp

/-- Witness for C7 at the `".g cats"` rewrite: the payload is preserved and
the result is the original message with only the textual fields replaced. -/
theorem rewrite_copy_on_write_witness :
    (rewriteForAlias [str "."] (str "g") googleAliasEntry
      (demoMsg ".g cats")).payload = (demoMsg ".g cats").payload ∧
    ∃ newText, rewriteForAlias [str "."] (str "g") googleAliasEntry
      (demoMsg ".g cats") =
      { demoMsg ".g cats" with message := newText, text := newText } :=
  rewrite_copy_on_write [str "."] (str "g") googleAliasEntry
    (demoMsg ".g cats") (by decide)

/-- C8: if the defensive re-check fails — the alias key's tokens are not a
literal leading prefix of the current message's tokens after
prefix-stripping — the dispatcher does not fail the dispatch: the message is
left unrewritten and the handler registered under `original` is invoked with
the original message. -/
theorem rewrite_recheck_fallback (pfs : List Str)
    (registry : List (Str × PluginEntry α)) (cmd : Str) (isEdited : Bool)
    (msg : Message α) (entry : PluginEntry α) (o f : Str) (h : Handler α)
    (hentry : mapGet registry cmd = some entry)
    (ho : entry.original = some o) (hoE : o.isEmpty = false)
    (hf : entry.aliasFinal = some f) (hfE : f.isEmpty = false)
    (hfo : f ≠ o)
    (hedit : (isEdited && entry.plugin.ignoreEdited) = false)
    (hhandler : lookupHandler entry.plugin o = some h)
    (hfail : (splitTokens cmd).isPrefixOf (strippedParts pfs msg) = false) :
    rewriteForAlias pfs cmd entry msg = msg ∧
    dealCommandPluginWithMessage pfs registry cmd isEdited msg =
      (match h msg with
       | .ok _ => DispatchResult.invoked o msg
       | .error e => DispatchResult.failed o msg e (failureNotice e) msg) := by
  obtain ⟨eo, ef, ep⟩ := entry
  simp only at ho hf hedit hhandler
  subst ho hf
  have hcond : (!o.isEmpty && !f.isEmpty && f != o) = true := by
    simp [hoE, hfE, bne_iff_ne, hfo]
  have hrw : rewriteForAlias pfs cmd ⟨some o, some f, ep⟩ msg = msg := by
    simp only [rewriteForAlias, hcond, if_true, hfail, Bool.and_false,
      Bool.false_eq_true, if_false]
  refine ⟨hrw, ?_⟩
  have htarget : jsOr (some o) cmd = o := by
    simp [jsOr, hoE]
  simp only [dealCommandPluginWithMessage, hentry, hedit, Bool.false_eq_true,
    if_false, htarget, hhandler, hrw]

/-- Witness for C8: the alias entry for `g` is dispatched against a message
whose tokens start with `x`, so the re-check fails and the `google` handler
receives the original, unrewritten message. -/
theorem rewrite_recheck_fallback_witness :
    rewriteForAlias [str "."] (str "g") googleAliasEntry (demoMsg ".x cats") =
      demoMsg ".x cats" ∧
    dealCommandPluginWithMessage [str "."] demoRegistry (str "g") false
      (demoMsg ".x cats") =
      DispatchResult.invoked (str "google") (demoMsg ".x cats") := by
  have hw := rewrite_recheck_fallback [str "."] demoRegistry (str "g") false
    (demoMsg ".x cats") googleAliasEntry (str "google") (str "google search")
    (fun _ => Except.ok ()) (by rfl) (by rfl) (by decide) (by rfl) (by decide)
    (by decide) (by rfl) (by rfl) (by decide)
  exact ⟨hw.1, hw.2.trans (by rfl)⟩

/-- C10: the rewriter normalizes whitespace: whenever the rewrite fires, the
text the handler receives is the matched prefix followed by the `aliasFinal`
tokens and the user's trailing-argument tokens, all joined by single spaces
(`joinSpace`), so whitespace runs between trailing arguments collapse. -/
theorem rewrite_normalizes_whitespace (pfs : List Str) (cmd : Str)
    (entry : PluginEntry α) (msg : Message α) (o f : Str)
    (ho : entry.original = some o) (hoE : o.isEmpty = false)
    (hf : entry.aliasFinal = some f) (hfE : f.isEmpty = false)
    (hfo : f ≠ o)
    (hmatch : (splitTokens cmd).isPrefixOf (strippedParts pfs msg) = true) :
    (rewriteForAlias pfs cmd entry msg).message =
      matchedOf pfs msg ++
        joinSpace (splitTokens f ++
          (strippedParts pfs msg).drop (splitTokens cmd).length) := by
  obtain ⟨eo, ef, ep⟩ := entry
  simp only at ho hf
  subst ho hf
  have hlen : (splitTokens cmd).length ≤ (strippedParts pfs msg).length :=
    (List.isPrefixOf_iff_prefix.mp hmatch).length_le
  have hcond : (!o.isEmpty && !f.isEmpty && f != o) = true := by
    simp [hoE, hfE, bne_iff_ne, hfo]
  simp only [rewriteForAlias, hcond, if_true, hmatch, Bool.and_true,
    decide_eq_true_eq, hlen, if_pos, rewrittenText]

/-- Witness for C10: `".g   cats  dogs"` (runs of spaces between arguments)
rewrites to `".google search cats dogs"` — argument tokens, not the raw
argument text, are preserved. -/
theorem rewrite_normalizes_whitespace_witness :
    (rewriteForAlias [str "."] (str "g") googleAliasEntry
      (demoMsg ".g   cats  dogs")).message =
      str ".google search cats dogs" := by
  have hw := rewrite_normalizes_whitespace [str "."] (str "g")
    googleAliasEntry (demoMsg ".g   cats  dogs") (str "google")
    (str "google search") (by rfl) (by decide) (by rfl) (by decide)
    (by decide) (by decide)
  exact hw.trans (by decide)

/-- Helper: the keys of `mapSet m k v` are those of `m`, extended by `k`
exactly when `k` is not already a key. -/
theorem mapSet_map_fst {γ : Type} (m : List (Str × γ)) (k : Str) (v : γ) :
    (mapSet m k v).map Prod.fst =
      if m.any (fun p => p.1 == k) then m.map Prod.fst
      else m.map Prod.fst ++ [k] := by
  unfold mapSet
  by_cases h : m.any (fun p => p.1 == k)
  · rw [if_pos h, if_pos h, List.map_map]
    apply List.map_congr_left
    intro p _
    by_cases hp : p.1 == k
    · simp only [Function.comp_apply, hp, if_true]
      exact (eq_of_beq hp).symm
    · simp only [Function.comp_apply, hp, Bool.false_eq_true, if_false]
  · rw [if_neg h, if_neg h, List.map_append]
    rfl

/-- Helper: `mapSet` preserves distinctness of the keys. -/
theorem mapSet_nodup_keys {γ : Type} (m : List (Str × γ)) (k : Str) (v : γ)
    (h : (m.map Prod.fst).Nodup) : ((mapSet m k v).map Prod.fst).Nodup := by
  rw [mapSet_map_fst]
  by_cases hc : m.any (fun p => p.1 == k)
  · rw [if_pos hc]
    exact h
  · rw [if_neg hc]
    have hk : k ∉ m.map Prod.fst := by
      intro hmem
      obtain ⟨p, hp, hpk⟩ := List.mem_map.mp hmem
      exact hc (List.any_eq_true.mpr ⟨p, hp, by simp [hpk]⟩)
    simp only [List.nodup_append, List.nodup_cons, List.not_mem_nil,
      not_false_iff, List.nodup_nil, and_true, h, true_and]
    intro a ha hb
    simp only [List.mem_singleton] at hb
    exact hk (hb ▸ ha)

/-- Helper: a property preserved by every fold step holds of the fold. -/
theorem foldl_preserve {σ β : Type} (P : σ → Prop) (g : σ → β → σ)
    (hg : ∀ acc x, P acc → P (g acc x)) :
    ∀ (l : List β) (acc : σ), P acc → P (l.foldl g acc) := by
  intro l
  induction l with
  | nil => intro acc h; exact h
  | cons x xs ih => intro acc h; exact ih (g acc x) (hg acc x h)

/-- Helper: registering one command (with its aliases) preserves key
distinctness of the index. -/
theorem registerPluginCmd_nodup_keys (aliasList : AliasStore) (p : Plugin α)
    (idx : List (Str × PluginEntry α)) (cmd : Str)
    (h : (idx.map Prod.fst).Nodup) :
    ((registerPluginCmd aliasList p idx cmd).map Prod.fst).Nodup := by
  unfold registerPluginCmd
  by_cases hc : 0 < aliasList.length
  · rw [if_pos hc]
    exact foldl_preserve
      (fun m : List (Str × PluginEntry α) => (m.map Prod.fst).Nodup) _
      (fun acc r hacc => mapSet_nodup_keys _ _ _ hacc) _ _
      (mapSet_nodup_keys _ _ _ h)
  · rw [if_neg hc]
    exact mapSet_nodup_keys _ _ _ h

/-- Helper: loading a directory of modules preserves key distinctness. -/
theorem setPlugins_nodup_keys (aliasList : AliasStore)
    (mods : List (Option (Plugin α)))
    (st : List (Plugin α) × List (Str × PluginEntry α))
    (h : (st.2.map Prod.fst).Nodup) :
    ((setPlugins aliasList mods st).2.map Prod.fst).Nodup := by
  unfold setPlugins
  refine foldl_preserve (fun acc => (acc.2.map Prod.fst).Nodup) _ ?_ mods st h
  intro acc x hacc
  match x with
  | none => exact hacc
  | some p =>
    exact foldl_preserve
      (fun m : List (Str × PluginEntry α) => (m.map Prod.fst).Nodup) _
      (fun m c hm => registerPluginCmd_nodup_keys aliasList p m c hm) _ _ hacc

/-- C4: reload is idempotent. A second `loadPlugins` over the same
environment reproduces the state of the first exactly (each reload first
clears the plugin set, command index, cron tasks, and every registered
transport event handler before re-registering), the resulting command index
has no duplicate command keys, and the number of registered transport event
subscriptions after the second reload equals the number after the first. -/
theorem reload_idempotent (env : LoadEnv α) (st : HostState α) :
    loadPlugins env (loadPlugins env st) = loadPlugins env st ∧
    ((loadPlugins env st).commandIndex.map Prod.fst).Nodup ∧
    (loadPlugins env (loadPlugins env st)).clientHandlers.length =
      (loadPlugins env st).clientHandlers.length := by
  have hconst : ∀ s s' : HostState α, loadPlugins env s = loadPlugins env s' :=
    fun s s' => rfl
  refine ⟨hconst _ _, ?_, by rw [hconst (loadPlugins env st) st]⟩
  show ((setPlugins env.aliasList env.builtinMods
      (setPlugins env.aliasList env.userMods ([], []))).2.map Prod.fst).Nodup
  exact setPlugins_nodup_keys _ _ _
    (setPlugins_nodup_keys _ _ ([], []) List.nodup_nil)

/-- Helper: folding `Map.set` over fresh keys appends one entry per element. -/
theorem foldl_mapSet_append {γ : Type} (f : Str × PluginEntry α → γ) :
    ∀ (l : List (Str × PluginEntry α)) (init : List (Str × γ)),
      (∀ p ∈ l, ∀ q ∈ init, q.1 ≠ p.1) →
      (l.map Prod.fst).Nodup →
      l.foldl (fun acc p => mapSet acc p.1 (f p)) init =
        init ++ l.map (fun p => (p.1, f p)) := by
  intro l
  induction l with
  | nil => intro init _ _; simp
  | cons p ps ih =>
    intro init hdisj hnodup
    have hany : init.any (fun q => q.1 == p.1) = false := by
      rw [Bool.eq_false_iff]
      intro hc
      obtain ⟨q, hq, hqk⟩ := List.any_eq_true.mp hc
      exact hdisj p (List.mem_cons_self p ps) q hq (eq_of_beq hqk)
    have hstep : mapSet init p.1 (f p) = init ++ [(p.1, f p)] := by
      unfold mapSet
      rw [hany]
      rfl
    rw [List.foldl_cons, hstep]
    rw [List.map_cons, List.nodup_cons] at hnodup
    rw [ih (init ++ [(p.1, f p)]) ?_ hnodup.2]
    · simp
    · intro x hx q hq
      rcases List.mem_append.mp hq with hq1 | hq2
      · exact hdisj x (List.mem_cons_of_mem p hx) q hq1
      · rw [List.mem_singleton] at hq2
        subst hq2
        intro hcontra
        exact hnodup.1 (hcontra ▸ List.mem_map_of_mem Prod.fst hx)

/-- C9: `listCommands` returns one display string per index key,
lexicographically sorted, where an alias-derived entry (one carrying a
truthy `original`) is rendered as the key annotated with the original
command in parentheses, and a literal entry as the bare key. -/
theorem list_commands_sorted_annotated (m : List (Str × PluginEntry α))
    (hkeys : (m.map Prod.fst).Nodup)
    (htruthy : ∀ p ∈ m, p.2.original ≠ some ([] : Str)) :
    List.Sorted (fun a b : Str => a ≤ b) (listCommands m) ∧
    (listCommands m).Perm
      (m.map (fun p =>
        match p.2.original with
        | some o => p.1 ++ ('(' :: o ++ [')'])
        | none => p.1)) := by
  have hfold : m.foldl
      (fun acc p => mapSet acc p.1 (renderCommand p.1 p.2)) [] =
      m.map (fun p => (p.1, renderCommand p.1 p.2)) := by
    have := foldl_mapSet_append (fun p => renderCommand p.1 p.2) m []
      (fun p _ q hq => absurd hq (List.not_mem_nil q)) hkeys
    simpa using this
  have hvals : (m.foldl
      (fun acc p => mapSet acc p.1 (renderCommand p.1 p.2)) []).map Prod.snd =
      m.map (fun p => renderCommand p.1 p.2) := by
    rw [hfold, List.map_map]
    rfl
  constructor
  · have hs := @List.sorted_mergeSort Str
      (fun a b : Str => decide (a ≤ b))
      (fun a b c hab hbc => by
        rw [decide_eq_true_eq] at hab hbc ⊢
        exact le_trans hab hbc)
      (fun a b => by
        rcases le_total a b with h | h <;> simp [h])
      ((m.foldl (fun acc p => mapSet acc p.1 (renderCommand p.1 p.2)) []).map
        Prod.snd)
    unfold listCommands
    exact hs.imp (fun {a b} hab => by
      rw [decide_eq_true_eq] at hab
      exact hab)
  · have hperm : (listCommands m).Perm
        (m.map (fun p => renderCommand p.1 p.2)) := by
      show (((m.foldl
          (fun acc p => mapSet acc p.1 (renderCommand p.1 p.2)) []).map
            Prod.snd).mergeSort (fun a b : Str => decide (a ≤ b))).Perm _
      rw [hvals]
      exact List.mergeSort_perm _ _
    refine hperm.trans (List.Perm.of_eq ?_)
    apply List.map_congr_left
    intro p hp
    unfold renderCommand
    cases ho : p.2.original with
    | none => rfl
    | some o =>
      have : ¬o.isEmpty := by
        intro hc
        rw [List.isEmpty_iff] at hc
        exact htruthy p hp (by rw [ho, hc])
      simp [this]

/-- Witness for C9 on the demo index: the alias key `g` is annotated with
its original `google`, the literal key `google` is bare, and the output is
sorted. -/
theorem list_commands_sorted_annotated_witness :
    List.Sorted (fun a b : Str => a ≤ b) (listCommands demoRegistry) ∧
    (listCommands demoRegistry).Perm
      [str "g(google)", str "google"] := by
  have hw := list_commands_sorted_annotated demoRegistry
    (by decide)
    (by
      intro p hp
      simp only [demoRegistry, googleAliasEntry, List.mem_cons,
        List.mem_singleton, List.not_mem_nil, or_false] at hp
      rcases hp with h | h <;> subst h <;> decide)
  exact ⟨hw.1, hw.2.trans (List.Perm.of_eq (by decide))⟩

end Telebun
